import Mathlib

/-!
Verification of the NCS rotation schedule engine and reminder scheduler of
the ectlogger repository, shallowly embedded from
`backend/app/routers/ncs_rotation.py` and `backend/app/ncs_reminder_service.py`.

Python `datetime` values are modelled at minute granularity (every call site
of the embedded functions constructs datetimes with `second=0, microsecond=0`,
and the schedule code only ever sets year/month/day/hour/minute).
-/

namespace Ect

/-- A Python `datetime` value (proleptic Gregorian calendar, minute
granularity). -/
structure DT where
  year : Nat
  month : Nat
  day : Nat
  hour : Nat
  minute : Nat
deriving DecidableEq, Repr

/-- Gregorian leap-year test (`calendar.isleap` semantics, as used by
`datetime` day arithmetic). -/
def isLeap (y : Nat) : Bool :=
  y % 4 == 0 && (y % 100 != 0 || y % 400 == 0)

/-- Number of days in a month of the proleptic Gregorian calendar. -/
def daysInMonth (y m : Nat) : Nat :=
  if m = 1 then 31
  else if m = 2 then (if isLeap y then 29 else 28)
  else if m = 3 then 31
  else if m = 4 then 30
  else if m = 5 then 31
  else if m = 6 then 30
  else if m = 7 then 31
  else if m = 8 then 31
  else if m = 9 then 30
  else if m = 10 then 31
  else if m = 11 then 30
  else 31

/-- Days in all months strictly before month `m` of year `y`. -/
def daysBeforeMonth (y m : Nat) : Nat :=
  (List.range (m - 1)).foldl (fun acc k => acc + daysInMonth y (k + 1)) 0

/-- Days in all years strictly before year `y` (proleptic Gregorian). -/
def daysBeforeYear (y : Nat) : Nat :=
  365 * (y - 1) + (y - 1) / 4 - (y - 1) / 100 + (y - 1) / 400

/-- `datetime.toordinal`: day number with day 1 = 0001-01-01. -/
def dayOrdinal (y m d : Nat) : Nat :=
  daysBeforeYear y + daysBeforeMonth y m + d

/-- `DT.ordinal`: ordinal of the calendar day of a datetime. -/
def DT.ordinal (t : DT) : Nat :=
  dayOrdinal t.year t.month t.day

/-- Python `date.weekday()`: 0 = Monday .. 6 = Sunday
(0001-01-01 is a Monday). -/
def weekdayOf (y m d : Nat) : Nat :=
  (dayOrdinal y m d + 6) % 7

/-- `DT.weekday`: weekday of the calendar day of a datetime. -/
def DT.weekday (t : DT) : Nat :=
  weekdayOf t.year t.month t.day

/-- Lexicographic `<=` on datetimes, matching Python datetime comparison. -/
def DT.ble (a b : DT) : Bool :=
  if a.year < b.year then true else if b.year < a.year then false
  else if a.month < b.month then true else if b.month < a.month then false
  else if a.day < b.day then true else if b.day < a.day then false
  else if a.hour < b.hour then true else if b.hour < a.hour then false
  else a.minute ≤ b.minute

/-- Strict `<` on datetimes. -/
def DT.blt (a b : DT) : Bool :=
  !(DT.ble b a)

/-- `dt + timedelta(days=1)` (time of day preserved). -/
def DT.addOneDay (t : DT) : DT :=
  if t.day < daysInMonth t.year t.month then { t with day := t.day + 1 }
  else if t.month < 12 then { t with month := t.month + 1, day := 1 }
  else { t with year := t.year + 1, month := 1, day := 1 }

/-- `dt + relativedelta(months=n)`: advance the month, clamp the day to the
length of the target month, preserve the time of day. -/
def DT.addMonths (t : DT) (n : Nat) : DT :=
  let mi := t.year * 12 + (t.month - 1) + n
  let y := mi / 12
  let m := mi % 12 + 1
  { t with year := y, month := m, day := min t.day (daysInMonth y m) }

/-- `dt.replace(day=1)`. -/
def DT.firstOfMonth (t : DT) : DT :=
  { t with day := 1 }

/-- `dt.replace(hour=h, minute=mi)`. -/
def DT.setTime (t : DT) (h mi : Nat) : DT :=
  { t with hour := h, minute := mi }

/-- `dt.date()`: the calendar-day key `(year, month, day)`. -/
def DT.dayKey (t : DT) : Nat × Nat × Nat :=
  (t.year, t.month, t.day)

/-- Linear month index `year*12 + (month-1)`, used to reason about the
month-by-month loop of the monthly expansion. -/
def DT.monthIdx (t : DT) : Nat :=
  t.year * 12 + (t.month - 1)

/-- Total minutes since the epoch of the proleptic calendar; datetime
subtraction (`total_seconds`) is a difference of these. -/
def DT.totalMinutes (t : DT) : Int :=
  ((t.ordinal : Int) * 24 + (t.hour : Int)) * 60 + (t.minute : Int)

/-- Structural validity of a datetime (what `datetime.__init__` enforces). -/
def DT.Valid (t : DT) : Prop :=
  1 ≤ t.month ∧ t.month ≤ 12 ∧ 1 ≤ t.day ∧ t.day ≤ daysInMonth t.year t.month

instance (t : DT) : Decidable t.Valid := by
  unfold DT.Valid; infer_instance

/-! ## Data model (`app/models.py`, the fields the schedule engine reads) -/

/-- A `User` row (only the fields the engine reads). `name`, `callsign` and
`email` are nullable text columns. -/
structure UserRec where
  id : Nat
  name : Option String
  callsign : Option String
  email : Option String
deriving DecidableEq, Repr

/-- An `NCSRotationMember` row together with its loaded `user` relationship. -/
structure Member where
  id : Nat
  user_id : Nat
  position : Int
  is_active : Bool
  user : Option UserRec
deriving DecidableEq, Repr

/-- An `NCSScheduleOverride` row together with its loaded `replacement_user`
relationship. `replacement_user_id = none` encodes a cancellation. -/
structure Override where
  id : Nat
  scheduled_date : DT
  original_user_id : Option Nat
  replacement_user_id : Option Nat
  reason : Option String
  created_by_id : Nat
  replacement_user : Option UserRec
deriving DecidableEq, Repr

/-- An `NCSScheduleEntry` response object (derived, not persisted). -/
structure NCSScheduleEntry where
  date : DT
  user_id : Option Nat
  user_name : Option String
  user_callsign : Option String
  user_email : Option String
  is_override : Bool
  is_cancelled : Bool
  override_reason : Option String
deriving DecidableEq, Repr

/-- Recurrence type of a template (`NetTemplate.schedule_type`). -/
inductive SType where
  | ad_hoc
  | daily
  | weekly
  | monthly
deriving DecidableEq, Repr

/-- Parsed `NetTemplate.schedule_config` JSON. The JSON decoding and the
`"HH:MM"` string parse are abstracted: `time = none` stands for a missing or
unparsable time entry (the source falls back to 19:00 in that case), and the
other fields are `none` when the key is absent. -/
structure SConfig where
  time : Option (Nat × Nat)
  day_of_week : Option Int
  week_of_month : Option (List Int)
deriving DecidableEq, Repr

/-- The fields of a `NetTemplate` row read by the schedule engine and the
reminder service. -/
structure RTemplate where
  id : Nat
  schedule_type : SType
  schedule_config : SConfig
  is_active : Bool
  rotation_members : List Member
deriving DecidableEq, Repr

/-! ## RotationResolver + OverrideLayer
(`compute_ncs_schedule`, `ncs_rotation.py` lines 120-194) -/

/-- The active members of a rotation sorted by `position`
(`ncs_rotation.py` lines 131-134; Python `sorted` is a stable sort by key,
matched here by a stable insertion sort). -/
def activeMembers (rotation_members : List Member) : List Member :=
  List.insertionSort (fun a b => a.position ≤ b.position)
    (rotation_members.filter (·.is_active))

/-- The override dict built by lines 140-143, keyed by
`override.scheduled_date.date()`: iterating the list into a dict makes the
last override with a given day key win. -/
def overrideLookup (overrides : List Override) (k : Nat × Nat × Nat) :
    Option Override :=
  (overrides.filter (fun o => o.scheduled_date.dayKey = k)).getLast?

/-- The entry rendered for a date that has an override
(`ncs_rotation.py` lines 154-178). -/
def renderOverride (date : DT) (ov : Override) : NCSScheduleEntry :=
  if ov.replacement_user_id.isNone then
    { date := date
      user_id := none
      user_name := none
      user_callsign := none
      user_email := none
      is_override := true
      is_cancelled := true
      override_reason := ov.reason }
  else
    { date := date
      user_id := ov.replacement_user_id
      user_name := ov.replacement_user.bind (·.name)
      user_callsign := ov.replacement_user.bind (·.callsign)
      user_email := ov.replacement_user.bind (·.email)
      is_override := true
      is_cancelled := false
      override_reason := ov.reason }

/-- The entry rendered for occurrence index `i` on a date without an override
(`ncs_rotation.py` lines 180-190): the assignee is
`active_members[i % member_count]`. -/
def renderRotation (active : List Member) (i : Nat) (date : DT) :
    NCSScheduleEntry :=
  let member := active.get? (i % active.length)
  { date := date
    user_id := member.map (·.user_id)
    user_name := (member.bind (·.user)).bind (·.name)
    user_callsign := (member.bind (·.user)).bind (·.callsign)
    user_email := (member.bind (·.user)).bind (·.email)
    is_override := false
    is_cancelled := false
    override_reason := none }

/-- `compute_ncs_schedule(template, dates, rotation_members, overrides)`
(`ncs_rotation.py` lines 120-194). The `template` parameter of the source
function is never read by its body and is omitted. -/
def compute_ncs_schedule (dates : List DT) (rotation_members : List Member)
    (overrides : List Override) : List NCSScheduleEntry :=
  if rotation_members.isEmpty || dates.isEmpty then []
  else
    let active := activeMembers rotation_members
    if active.isEmpty then []
    else
      dates.enum.map (fun p =>
        match overrideLookup overrides p.2.dayKey with
        | some ov => renderOverride p.2 ov
        | none => renderRotation active p.1 p.2)

/-! ## RecurrenceExpander
(`calculate_schedule_dates`, `ncs_rotation.py` lines 58-117) -/

/-- `config.get('time', '19:00')` followed by the `try`/`except` parse of
lines 67-71: a missing or unparsable time falls back to `(19, 0)`. -/
def configTime (c : SConfig) : Nat × Nat :=
  c.time.getD (19, 0)

/-- Conversion of the external weekday convention (0 = Sunday) to Python's
(0 = Monday): `(day_of_week - 1) % 7 if day_of_week > 0 else 6`
(lines 82 and 89). -/
def pythonWeekday (day_of_week : Int) : Nat :=
  if day_of_week > 0 then ((day_of_week - 1) % 7).toNat else 6

/-- `rrule(DAILY, dtstart=cur, until=endD)`: one occurrence per day, from
`cur` while `<= endD`, the time of day carried along. `fuel` bounds the
recursion and is chosen large enough at the call site. -/
def dailyRule (fuel : Nat) (cur endD : DT) : List DT :=
  match fuel with
  | 0 => []
  | f + 1 =>
    if cur.ble endD then cur :: dailyRule f cur.addOneDay endD else []

/-- Advance a datetime day by day (at most `fuel` steps) to the next day
whose weekday is `w`; with `fuel = 7` this is the first occurrence
`>= cur` of weekday `w`. -/
def toWeekday (w : Nat) (fuel : Nat) (cur : DT) : DT :=
  match fuel with
  | 0 => cur
  | f + 1 => if cur.weekday == w then cur else toWeekday w f cur.addOneDay

/-- `dt + timedelta(days=n)`. -/
def DT.addDays (t : DT) : Nat → DT
  | 0 => t
  | n + 1 => t.addOneDay.addDays n

/-- The 7-day stepping of `rrule(WEEKLY, byweekday=w, ...)` once the first
matching day is found: occurrences while `<= endD`. -/
def weeklyRule (fuel : Nat) (cur endD : DT) : List DT :=
  match fuel with
  | 0 => []
  | f + 1 =>
    if cur.ble endD then cur :: weeklyRule f (cur.addDays 7) endD else []

/-- The inner day-by-day scan of lines 98-103: the days of month `(y, m)`
whose weekday is `w`, in ascending order. -/
def weekOccurrences (y m w : Nat) : List Nat :=
  (((List.range (daysInMonth y m)).map (· + 1)).filter
    (fun d => weekdayOf y m d == w))

/-- The per-month selection of lines 105-111: for each selector in
`weeks_of_month`, 5 picks the last matching day of the month, `1..len`
picks the Nth, anything else is skipped. -/
def monthEntries (cur : DT) (w hour minute : Nat) (weeks : List Int) :
    List DT :=
  let occs := weekOccurrences cur.year cur.month w
  weeks.flatMap (fun week_num =>
    if week_num = 5 then
      match occs.getLast? with
      | some d => [⟨cur.year, cur.month, d, hour, minute⟩]
      | none => []
    else if 1 ≤ week_num ∧ week_num ≤ (occs.length : Int) then
      match occs.get? (week_num - 1).toNat with
      | some d => [⟨cur.year, cur.month, d, hour, minute⟩]
      | none => []
    else [])

/-- The outer `while current <= end_date` loop of lines 92-113, stepping
`current += relativedelta(months=1)`. `fuel` bounds the recursion and is
chosen large enough at the call site. -/
def monthlyLoop (fuel : Nat) (cur endD : DT) (w hour minute : Nat)
    (weeks : List Int) : List DT :=
  match fuel with
  | 0 => []
  | f + 1 =>
    if cur.ble endD then
      monthEntries cur w hour minute weeks
        ++ monthlyLoop f (cur.addMonths 1) endD w hour minute weeks
    else []

/-- `calculate_schedule_dates(template, start_date, months_ahead)`
(`ncs_rotation.py` lines 58-117). -/
def calculate_schedule_dates (template : RTemplate) (start_date : DT)
    (months_ahead : Nat) : List DT :=
  if template.schedule_type = .ad_hoc then []
  else
    let config := template.schedule_config
    let end_date := start_date.addMonths months_ahead
    let hour := (configTime config).1
    let minute := (configTime config).2
    let dates :=
      match template.schedule_type with
      | .ad_hoc => []
      | .daily =>
        (dailyRule (end_date.ordinal + 2 - start_date.ordinal)
            start_date end_date).map (fun (d : DT) => d.setTime hour minute)
      | .weekly =>
        let w := pythonWeekday (config.day_of_week.getD 0)
        let first := toWeekday w 7 start_date
        (weeklyRule (end_date.ordinal + 2 - first.ordinal)
            first end_date).map (fun (d : DT) => d.setTime hour minute)
      | .monthly =>
        let w := pythonWeekday (config.day_of_week.getD 0)
        let weeks := config.week_of_month.getD [1]
        monthlyLoop (months_ahead + 2) start_date.firstOfMonth end_date
          w hour minute weeks
    List.insertionSort (fun a b => a.ble b = true)
      (dates.filter (fun d => start_date.ble d))

/-! ## Override upsert
(`create_schedule_override`, `ncs_rotation.py` lines 379-426) -/

/-- Lines 393-398: who the base rotation assigns on `scheduled_date`,
computed by `compute_ncs_schedule` over the single date with an empty
override list. -/
def computeOriginalUserId (rotation_members : List Member) (d : DT) :
    Option Nat :=
  match (compute_ncs_schedule [d] rotation_members []).head? with
  | some e => e.user_id
  | none => none

/-- Lines 400-426: upsert of an `NCSScheduleOverride` keyed by the exact
`scheduled_date` timestamp. The database holds at most one row per
(template, scheduled_date) — `scalar_one_or_none` would raise otherwise —
so updating every matching row coincides with updating the unique one.
`new_id` stands for the database-assigned id of a freshly inserted row. -/
def createOrUpdateOverride (rotation_members : List Member)
    (overrides : List Override) (scheduled_date : DT)
    (replacement_user_id : Option Nat) (reason : Option String)
    (created_by : Nat) (new_id : Nat) : List Override :=
  let original_user_id := computeOriginalUserId rotation_members scheduled_date
  if overrides.any (fun o => o.scheduled_date = scheduled_date) then
    overrides.map (fun o =>
      if o.scheduled_date = scheduled_date then
        { o with
            replacement_user_id := replacement_user_id
            reason := reason
            original_user_id := original_user_id }
      else o)
  else
    overrides ++ [{
      id := new_id
      scheduled_date := scheduled_date
      original_user_id := original_user_id
      replacement_user_id := replacement_user_id
      reason := reason
      created_by_id := created_by
      replacement_user := none }]

/-- The stored override row for an exact `scheduled_date` timestamp
(`scalar_one_or_none` of lines 401-407). -/
def findOverride (overrides : List Override) (scheduled_date : DT) :
    Option Override :=
  overrides.find? (fun o => o.scheduled_date = scheduled_date)

/-! ## Next-occurrence lookup
(`get_next_ncs`, `ncs_rotation.py` lines 352-376) -/

/-- `get_next_ncs` with the `datetime.now()`-derived window start passed in
as `start_date` (the route uses today at midnight). -/
def get_next_ncs (template : RTemplate) (overrides : List Override)
    (start_date : DT) : Option NCSScheduleEntry :=
  let dates := calculate_schedule_dates template start_date 1
  if dates.isEmpty then none
  else
    (compute_ncs_schedule (dates.take 1) template.rotation_members
      overrides).head?

/-! ## Member reorder
(`reorder_rotation_members`, `ncs_rotation.py` lines 285-317) -/

/-- The loop of lines 299-308: `for i, member_id in
enumerate(member_ids, start=1)`, selecting the member row with that id
belonging to the template and, when found, setting `position = i`. Ids that
match no member row of the template are skipped, but `i` still advances. -/
def applyReorder (members : List Member) : Nat → List Nat → List Member
  | _, [] => members
  | i, member_id :: rest =>
    applyReorder
      (members.map (fun m =>
        if m.id = member_id then { m with position := (i : Int) } else m))
      (i + 1) rest

/-- `reorder_rotation_members` position assignment over the template's
member rows. -/
def reorderPositions (members : List Member) (member_ids : List Nat) :
    List Member :=
  applyReorder members 1 member_ids

/-! ## ReminderScheduler (`ncs_reminder_service.py`)

The service's per-poll body `_check_and_send_reminders` is embedded with its
schedule computation as an explicit parameter `compute` (in the source it is
the imported `compute_ncs_schedule` applied at the call site of line 90) and
the email transport as an explicit parameter `noti` (the injected
`EmailService.send_ncs_reminder`), which may succeed or fail. -/

/-- One entry of the schedule dict the service iterates
(`entry.get('user_id')`, `entry.get('is_cancelled')`, `entry['date']`):
`date = none` models a missing or non-ISO `date` value, which the service
skips (lines 100-103). -/
structure SEntry where
  user_id : Option Nat
  is_cancelled : Bool
  date : Option DT
deriving DecidableEq, Repr

/-- The dedup key of an `NCSReminderLog` row:
`(template_id, user_id, net_date, reminder_type)`. -/
structure LogKey where
  template_id : Nat
  user_id : Nat
  net_date : Nat × Nat × Nat
  reminder_type : String
deriving DecidableEq, Repr

/-- The state the reminder service reads and writes: the persisted
`NCSReminderLog` rows, the invocations of the injected send operation
(in order), and the logged error messages. -/
structure SState where
  log : List LogKey
  invoked : List LogKey
  errors : List String
deriving DecidableEq, Repr

/-- `REMINDER_HOURS = [24, 1]` (line 25). -/
def REMINDER_HOURS : List Nat := [24, 1]

/-- `f"{reminder_hours}h"` (lines 114 and 216). -/
def reminderType (h : Nat) : String := toString h ++ "h"

/-- `(scheduled_dt - now).total_seconds() / 3600` as exact minutes: with
minute-granularity datetimes the float tolerance test of line 112,
`abs(hours_until - reminder_hours) <= 0.5`, is exactly
`|minutes_until - 60*reminder_hours| <= 30`. -/
def minutesUntil (now target : DT) : Int :=
  target.totalMinutes - now.totalMinutes

/-- The tolerance window test of line 112. -/
def withinWindow (minutes : Int) (reminder_hours : Nat) : Bool :=
  (minutes - (reminder_hours : Int) * 60).natAbs ≤ 30

/-- Python truthiness of `user.email`: both a NULL column and an empty
string are falsy (line 126). -/
def emailPresent : Option String → Bool
  | none => false
  | some s => !(s = "")

/-- `_check_reminder_sent` (lines 139-159): an `NCSReminderLog` row with the
given key exists. -/
def reminderAlreadySent (st : SState) (key : LogKey) : Bool :=
  st.log.contains key

/-- `_send_reminder` (lines 168-231): invoke the injected send operation;
only on success insert the `NCSReminderLog` row and commit — a raised send
failure is caught and logged without inserting the row. -/
def sendReminder (noti : SState → LogKey → Bool) (st : SState)
    (key : LogKey) : SState :=
  let st1 := { st with invoked := st.invoked ++ [key] }
  if noti st key then { st1 with log := st1.log ++ [key] }
  else { st1 with errors := st1.errors ++ ["send failure"] }

/-- The body of the `for reminder_hours in self.REMINDER_HOURS` loop
(lines 110-134): inside the tolerance window, dedup against the log, look
the user up, and send only when an email address is present. -/
def offsetStep (noti : SState → LogKey → Bool) (users : List UserRec)
    (template_id uid : Nat) (scheduled_dt now : DT) (st : SState)
    (r : Nat) : SState :=
  if withinWindow (minutesUntil now scheduled_dt) r then
    if reminderAlreadySent st
        ⟨template_id, uid, scheduled_dt.dayKey, reminderType r⟩ then st
    else
      match users.find? (fun u => u.id = uid) with
      | none => st
      | some u =>
        if emailPresent u.email then
          sendReminder noti st
            ⟨template_id, uid, scheduled_dt.dayKey, reminderType r⟩
        else st
  else st

/-- Lines 95-134: processing of one schedule entry — skip entries without a
(truthy) user id, cancelled entries and unparsable dates, then run
`offsetStep` for each offset in `REMINDER_HOURS`. -/
def processEntry (noti : SState → LogKey → Bool) (users : List UserRec)
    (template_id : Nat) (now : DT) (st : SState) (e : SEntry) : SState :=
  if e.user_id.getD 0 = 0 || e.is_cancelled then st
  else
    match e.date with
    | none => st
    | some scheduled_dt =>
      REMINDER_HOURS.foldl
        (offsetStep noti users template_id (e.user_id.getD 0) scheduled_dt
          now) st

/-- Lines 83-134: processing of one active template — templates with no
rotation members are skipped; a failure of the schedule computation is
caught, logged, and skips that template only. -/
def processTemplate (compute : RTemplate → Except String (List SEntry))
    (noti : SState → LogKey → Bool) (users : List UserRec) (now : DT)
    (st : SState) (t : RTemplate) : SState :=
  if t.rotation_members.isEmpty then st
  else
    match compute t with
    | .error e => { st with errors := st.errors ++ [e] }
    | .ok schedule =>
      schedule.foldl (processEntry noti users t.id now) st

/-- `_check_and_send_reminders` (lines 64-137): one poll over every
template with `is_active = true`. -/
def checkAndSendReminders (compute : RTemplate → Except String (List SEntry))
    (noti : SState → LogKey → Bool) (users : List UserRec) (now : DT)
    (templates : List RTemplate) (st : SState) : SState :=
  (templates.filter (·.is_active)).foldl
    (processTemplate compute noti users now) st

/-- `_run_loop` (lines 53-62) over `fuel` poll intervals: any exception the
poll body raises is caught and logged, and the loop proceeds to the next
interval; only cancellation (here: exhaustion of `fuel`) ends it. -/
def runLoop (body : SState → Except String SState) : Nat → SState → SState
  | 0, st => st
  | n + 1, st =>
    runLoop body n
      (match body st with
       | .ok st2 => st2
       | .error e => { st with errors := st.errors ++ [e] })

/-- A sequence of polls (`runPolls` drives `checkAndSendReminders` once per
element, each with its own template snapshot and clock reading). -/
def runPolls (compute : RTemplate → Except String (List SEntry))
    (noti : SState → LogKey → Bool) (users : List UserRec)
    (polls : List (List RTemplate × DT)) (st : SState) : SState :=
  polls.foldl
    (fun st p => checkAndSendReminders compute noti users p.2 p.1 st) st

/-! ### The schedule computation the service actually performs

Line 90 of `ncs_reminder_service.py` invokes the imported
`compute_ncs_schedule` as `compute_ncs_schedule(db, template.id, weeks=1)`:
two positional arguments and the keyword argument `weeks`. The imported
function (`ncs_rotation.py` line 120) declares the parameters
`(template, dates, rotation_members, overrides)`, none with a default.
Python's call binding therefore raises `TypeError` — `weeks` names no
parameter (and `rotation_members` and `overrides` receive no argument) —
before the function body runs. -/

/-- The parameter list of `compute_ncs_schedule` (`ncs_rotation.py`
line 120), none with a default value. -/
def computeNcsScheduleParams : List String :=
  ["template", "dates", "rotation_members", "overrides"]

/-- The keyword arguments of the call at `ncs_reminder_service.py`
line 90. -/
def serviceCallKeywords : List String := ["weeks"]

/-- The number of positional arguments `(db, template.id)` of that call. -/
def serviceCallPositionalCount : Nat := 2

/-- Python's binding check for that call: every keyword must name a
parameter, and each of the four default-less parameters must receive
exactly one argument. -/
def serviceCallBindsOk : Bool :=
  serviceCallKeywords.all (fun k => computeNcsScheduleParams.contains k)
    && serviceCallPositionalCount + serviceCallKeywords.length
        = computeNcsScheduleParams.length

/-- The template-schedule computation performed by the reminder service:
the call of line 90 under Python's binding rules. The success branch is
unreachable — `serviceCallBindsOk` is `false` — so the `TypeError` is
raised on every poll for every template. -/
def serviceComputeSchedule (_t : RTemplate) : Except String (List SEntry) :=
  if serviceCallBindsOk then Except.ok []
  else Except.error
    "TypeError: compute_ncs_schedule() got an unexpected keyword argument"

/-! ## Helper lemmas -/

theorem activeMembers_nil : activeMembers [] = [] := rfl

theorem isEmpty_false_of_ne_nil {α : Type} {l : List α} (h : l ≠ []) :
    l.isEmpty = false := by
  cases l with
  | nil => exact absurd rfl h
  | cons a t => rfl

theorem rotation_ne_nil_of_active {rm : List Member}
    (h : activeMembers rm ≠ []) : rm.isEmpty = false := by
  cases rm with
  | nil => exact absurd activeMembers_nil h
  | cons a t => rfl

/-- Indexing into the schedule produced by `compute_ncs_schedule`: when the
rotation has an active member, entry `i` is rendered from the override for
that date's calendar day if one exists, and from the round-robin index
otherwise. -/
theorem compute_ncs_schedule_getElem (dates : List DT) (rm : List Member)
    (ovs : List Override) (i : Nat) (hi : i < dates.length)
    (hact : activeMembers rm ≠ []) :
    (compute_ncs_schedule dates rm ovs)[i]? =
      some (match overrideLookup ovs (dates[i].dayKey) with
            | some ov => renderOverride dates[i] ov
            | none => renderRotation (activeMembers rm) i dates[i]) := by
  have hrm : rm.isEmpty = false := rotation_ne_nil_of_active hact
  have hd : dates.isEmpty = false := by
    cases dates with
    | nil => simp at hi
    | cons a t => rfl
  have hae : (activeMembers rm).isEmpty = false := isEmpty_false_of_ne_nil hact
  simp only [compute_ncs_schedule, hrm, hd, hae, Bool.or_self, Bool.false_eq_true,
    if_false]
  rw [List.getElem?_map, List.getElem?_enum, List.getElem?_eq_getElem hi]
  rfl

/-- `compute_ncs_schedule` returns the empty schedule whenever the rotation
has no active member. -/
theorem compute_ncs_schedule_eq_nil_of_no_active (dates : List DT)
    (rm : List Member) (ovs : List Override)
    (hact : activeMembers rm = []) :
    compute_ncs_schedule dates rm ovs = [] := by
  unfold compute_ncs_schedule
  split
  · rfl
  · simp [hact]

/-! ## Concrete fixtures -/

/-- A monthly template: last Monday of the month (external weekday 1,
selector 5), default time. -/
def lastMondayTemplate : RTemplate :=
  { id := 1, schedule_type := .monthly,
    schedule_config :=
      { time := none, day_of_week := some 1, week_of_month := some [5] },
    is_active := true, rotation_members := [] }

/-- A concrete schedule computation that fails on template 1 and succeeds
(with an empty schedule) on every other template. -/
def failingCompute : RTemplate → Except String (List SEntry) :=
  fun t => if t.id = 1 then Except.error "boom" else Except.ok []

/-- An active daily template with id 1 and one rotation member. -/
def activeTemplateOne : RTemplate :=
  { id := 1, schedule_type := .daily,
    schedule_config :=
      { time := none, day_of_week := none, week_of_month := none },
    is_active := true,
    rotation_members := [⟨1, 10, 1, true, none⟩] }

/-- An active daily template with id 2 and one rotation member. -/
def activeTemplateTwo : RTemplate :=
  { id := 2, schedule_type := .daily,
    schedule_config :=
      { time := none, day_of_week := none, week_of_month := none },
    is_active := true,
    rotation_members := [⟨2, 20, 1, true, none⟩] }

/-- A daily template whose single rotation member is inactive. -/
def inactiveDailyTemplate : RTemplate :=
  { id := 2, schedule_type := .daily,
    schedule_config :=
      { time := none, day_of_week := none, week_of_month := none },
    is_active := true,
    rotation_members := [⟨1, 10, 1, false, none⟩] }

/-! ## C9 -/

/-- C9: the monthly expansion is not bounded above by the horizon. For the
last-Monday template expanded from 2024-01-01 with a 1-month horizon
(so `end_date` = 2024-02-01), the output contains an occurrence strictly
later than `start_date + horizon_months`: months are iterated whole and the
output is filtered only against `>= start_date`. -/
theorem claim_C9_monthly_expansion_exceeds_horizon :
    (calculate_schedule_dates lastMondayTemplate ⟨2024, 1, 1, 0, 0⟩ 1).any
      (fun d => (DT.addMonths ⟨2024, 1, 1, 0, 0⟩ 1).blt d) = true := by
  decide

/-! ## C5 -/

/-- C5 counterexample: for the last-Monday monthly template expanded from
start date 2024-01-31 over 6 months, the expansion yields no occurrence at
all in January 2024 — the month of the start date, hence a month of the
horizon — because the last Monday of January (the 29th) precedes the start
date and is removed by the `>= start_date` filter. The claim's "exactly one
occurrence in each month of the horizon" therefore fails. -/
theorem claim_C5_counterexample_first_month_dropped :
    calculate_schedule_dates lastMondayTemplate ⟨2024, 1, 31, 0, 0⟩ 6 =
      [⟨2024, 2, 26, 19, 0⟩, ⟨2024, 3, 25, 19, 0⟩, ⟨2024, 4, 29, 19, 0⟩,
       ⟨2024, 5, 27, 19, 0⟩, ⟨2024, 6, 24, 19, 0⟩, ⟨2024, 7, 29, 19, 0⟩] ∧
    (calculate_schedule_dates lastMondayTemplate ⟨2024, 1, 31, 0, 0⟩ 6).countP
      (fun d => d.year = 2024 && d.month = 1) = 0 := by
  decide

/-! ## C10 -/

/-- C10: if the recurrence yields at least one upcoming date but the
template's rotation has no active member (in particular, no member at all),
`get_next_ncs` returns `none` rather than an entry with a null assignee. -/
theorem claim_C10_next_is_none_without_active_member (template : RTemplate)
    (overrides : List Override) (start_date : DT)
    (hdates : calculate_schedule_dates template start_date 1 ≠ [])
    (hact : activeMembers template.rotation_members = []) :
    get_next_ncs template overrides start_date = none := by
  simp only [get_next_ncs, isEmpty_false_of_ne_nil hdates, Bool.false_eq_true,
    if_false]
  rw [compute_ncs_schedule_eq_nil_of_no_active _ _ _ hact]
  rfl

/-- C10 witness: a daily template with one inactive member has a non-empty
upcoming date list, and `get_next_ncs` returns `none` for it. -/
theorem claim_C10_next_is_none_without_active_member_witness :
    calculate_schedule_dates inactiveDailyTemplate ⟨2025, 1, 1, 0, 0⟩ 1 ≠ [] ∧
    get_next_ncs inactiveDailyTemplate [] ⟨2025, 1, 1, 0, 0⟩ = none :=
  ⟨by decide,
   claim_C10_next_is_none_without_active_member inactiveDailyTemplate []
     ⟨2025, 1, 1, 0, 0⟩ (by decide) (by decide)⟩

/-! ## C7 -/

/-- C7 counterexample: on a template whose only member row has id 1, calling
reorder with `member_ids = [999, 1]` — 999 belonging to no member of the
template — assigns the member position 2, not position 1: the enumeration
counter advances even for skipped foreign ids, so the claimed
"positions 1..N following the given order, ignoring ids not belonging to
the template" fails. -/
theorem claim_C7_counterexample_foreign_id_shifts_positions :
    (reorderPositions [⟨1, 100, 1, true, none⟩] [999, 1]).map (·.position) =
      [2] ∧ (2 : Int) ≠ 1 := by
  decide

/-- The reorder loop in closed form (for duplicate-free id lists): a member
whose id occurs in the list receives position `start + index`, every other
member is untouched. -/
theorem applyReorder_eq_map (ids : List Nat) (i : Nat)
    (members : List Member) (h : ids.Nodup) :
    applyReorder members i ids =
      members.map (fun m =>
        if m.id ∈ ids then
          { m with position := ((i + ids.indexOf m.id : Nat) : Int) }
        else m) := by
  induction ids generalizing i members with
  | nil => simp [applyReorder]
  | cons mid rest ih =>
    simp only [applyReorder]
    rw [ih (i + 1) _ (List.Nodup.of_cons h), List.map_map]
    apply List.map_congr_left
    intro m _
    simp only [Function.comp_apply]
    by_cases hm : m.id = mid
    · have hmid : mid ∉ rest := (List.nodup_cons.mp h).1
      simp only [hm, if_pos rfl]
      rw [if_neg (by simpa using hmid)]
      rw [if_pos (List.mem_cons_self mid rest)]
      rw [List.indexOf_cons_self]
      simp
    · rw [if_neg hm]
      by_cases hr : m.id ∈ rest
      · rw [if_pos hr, if_pos (List.mem_cons_of_mem mid hr)]
        rw [List.indexOf_cons_ne _ fun he => hm he.symm]
        have : i + 1 + List.indexOf m.id rest =
            i + (List.indexOf m.id rest + 1) := by omega
        rw [this]
      · rw [if_neg hr]
        rw [if_neg (by
          intro hmem
          rcases List.mem_cons.mp hmem with h1 | h2
          · exact hm h1
          · exact hr h2)]

/-- C7 amended: `reorder(member_ids)` (for a duplicate-free id list) assigns
to each listed id that belongs to the template the position equal to its
1-based index in the full `member_ids` list — ids belonging to no member of
the template are skipped for assignment but still advance the index — and
leaves every unlisted member untouched. -/
theorem claim_C7_reorder_assigns_list_indices (members : List Member)
    (member_ids : List Nat) (h : member_ids.Nodup) :
    reorderPositions members member_ids =
      members.map (fun m =>
        if m.id ∈ member_ids then
          { m with position := ((1 + member_ids.indexOf m.id : Nat) : Int) }
        else m) :=
  applyReorder_eq_map member_ids 1 members h

/-- C7 witness: on a two-member rotation with member ids 1 and 2,
`reorder([2, 1])` yields `position 1` for member 2 and `position 2` for
member 1 (the in-particular case of the claim, which does hold). -/
theorem claim_C7_reorder_assigns_list_indices_witness :
    reorderPositions
      [⟨1, 10, 1, true, none⟩, ⟨2, 20, 2, true, none⟩] [2, 1] =
      [⟨1, 10, 2, true, none⟩, ⟨2, 20, 1, true, none⟩] := by
  have h := claim_C7_reorder_assigns_list_indices
    [⟨1, 10, 1, true, none⟩, ⟨2, 20, 2, true, none⟩] [2, 1] (by decide)
  exact h.trans (by decide)

/-! ## C1 -/

/-- C1: for any dates, any rotation with at least one active member, and any
override lists, the schedule entry at 0-based index `i` whose date has no
override (under the calendar-day keyed lookup) is the plain round-robin
entry, whose assignee is `active_members[i % N]`; the entry is identical for
any two override lists that have no override on that date's day, so adding
or removing overrides on other dates never changes the assignee of an
un-overridden occurrence. -/
theorem claim_C1_rotation_index_independent_of_overrides (dates : List DT)
    (rm : List Member) (o1 o2 : List Override) (i : Nat)
    (hi : i < dates.length) (hact : activeMembers rm ≠ [])
    (h1 : overrideLookup o1 (dates[i].dayKey) = none)
    (h2 : overrideLookup o2 (dates[i].dayKey) = none) :
    (compute_ncs_schedule dates rm o1)[i]? =
        some (renderRotation (activeMembers rm) i dates[i]) ∧
    (∃ mem,
      (activeMembers rm).get? (i % (activeMembers rm).length) = some mem ∧
      (renderRotation (activeMembers rm) i dates[i]).user_id =
        some mem.user_id) ∧
    (compute_ncs_schedule dates rm o1)[i]? =
      (compute_ncs_schedule dates rm o2)[i]? := by
  have e1 := compute_ncs_schedule_getElem dates rm o1 i hi hact
  have e2 := compute_ncs_schedule_getElem dates rm o2 i hi hact
  rw [h1] at e1
  rw [h2] at e2
  have hlen : 0 < (activeMembers rm).length := by
    cases hm : activeMembers rm with
    | nil => exact absurd hm hact
    | cons a t => simp [hm]
  have hmod : i % (activeMembers rm).length < (activeMembers rm).length :=
    Nat.mod_lt i hlen
  refine ⟨e1, ⟨(activeMembers rm).get ⟨_, hmod⟩, List.get?_eq_get hmod, ?_⟩,
    e1.trans e2.symm⟩
  simp only [renderRotation, List.get?_eq_get hmod]
  rfl

/-- C1 witness: two dates, two active members, an override on the second
date only: entry 0 of the schedule is the base-rotation entry assigning
member `10`, identically with and without the override. -/
theorem claim_C1_rotation_index_independent_of_overrides_witness :
    (compute_ncs_schedule [⟨2024, 1, 7, 19, 0⟩, ⟨2024, 1, 14, 19, 0⟩]
        [⟨1, 10, 1, true, none⟩, ⟨2, 20, 2, true, none⟩] [])[0]? =
      some (renderRotation
        (activeMembers [⟨1, 10, 1, true, none⟩, ⟨2, 20, 2, true, none⟩]) 0
        ⟨2024, 1, 7, 19, 0⟩) ∧
    (∃ mem,
      (activeMembers [⟨1, 10, 1, true, none⟩, ⟨2, 20, 2, true, none⟩]).get?
          (0 % (activeMembers
            [⟨1, 10, 1, true, none⟩, ⟨2, 20, 2, true, none⟩]).length) =
        some mem ∧
      (renderRotation
        (activeMembers [⟨1, 10, 1, true, none⟩, ⟨2, 20, 2, true, none⟩]) 0
        ⟨2024, 1, 7, 19, 0⟩).user_id = some mem.user_id) ∧
    (compute_ncs_schedule [⟨2024, 1, 7, 19, 0⟩, ⟨2024, 1, 14, 19, 0⟩]
        [⟨1, 10, 1, true, none⟩, ⟨2, 20, 2, true, none⟩] [])[0]? =
      (compute_ncs_schedule [⟨2024, 1, 7, 19, 0⟩, ⟨2024, 1, 14, 19, 0⟩]
        [⟨1, 10, 1, true, none⟩, ⟨2, 20, 2, true, none⟩]
        [⟨5, ⟨2024, 1, 14, 19, 0⟩, some 20, some 10, some "swap", 1,
          none⟩])[0]? :=
  claim_C1_rotation_index_independent_of_overrides
    [⟨2024, 1, 7, 19, 0⟩, ⟨2024, 1, 14, 19, 0⟩]
    [⟨1, 10, 1, true, none⟩, ⟨2, 20, 2, true, none⟩] []
    [⟨5, ⟨2024, 1, 14, 19, 0⟩, some 20, some 10, some "swap", 1, none⟩] 0
    (by decide) (by decide) (by decide) (by decide)

/-! ## C8 -/

/-- C8: the override lookup is keyed by calendar day only. If two occurrence
timestamps in the dates list fall on the same calendar day as a single
override record, both schedule entries are rendered from that one override:
they carry the same user, the same cancellation status, the same reason, and
both are marked `is_override`. -/
theorem claim_C8_day_keyed_override_applies_to_both (dates : List DT)
    (rm : List Member) (ov : Override) (i j : Nat)
    (hi : i < dates.length) (hj : j < dates.length)
    (hact : activeMembers rm ≠ [])
    (hdi : dates[i].dayKey = ov.scheduled_date.dayKey)
    (hdj : dates[j].dayKey = ov.scheduled_date.dayKey) :
    (compute_ncs_schedule dates rm [ov])[i]? =
        some (renderOverride dates[i] ov) ∧
    (compute_ncs_schedule dates rm [ov])[j]? =
        some (renderOverride dates[j] ov) ∧
    (renderOverride dates[i] ov).user_id =
        (renderOverride dates[j] ov).user_id ∧
    (renderOverride dates[i] ov).is_cancelled =
        (renderOverride dates[j] ov).is_cancelled ∧
    (renderOverride dates[i] ov).override_reason =
        (renderOverride dates[j] ov).override_reason ∧
    (renderOverride dates[i] ov).is_override = true := by
  have hl : ∀ k : Nat, ∀ hk : k < dates.length,
      dates[k].dayKey = ov.scheduled_date.dayKey →
      overrideLookup [ov] (dates[k].dayKey) = some ov := by
    intro k hk hdk
    simp [overrideLookup, List.filter_cons, hdk]
  have e1 := compute_ncs_schedule_getElem dates rm [ov] i hi hact
  have e2 := compute_ncs_schedule_getElem dates rm [ov] j hj hact
  rw [hl i hi hdi] at e1
  rw [hl j hj hdj] at e2
  refine ⟨e1, e2, ?_, ?_, ?_, ?_⟩ <;>
    simp [renderOverride] <;> split <;> simp

/-- C8 witness: two timestamps on 2024-01-14 (09:00 and 19:00) and one
cancellation override dated 2024-01-14: both entries are rendered from it as
cancelled. -/
theorem claim_C8_day_keyed_override_applies_to_both_witness :
    (compute_ncs_schedule [⟨2024, 1, 14, 9, 0⟩, ⟨2024, 1, 14, 19, 0⟩]
        [⟨1, 10, 1, true, none⟩]
        [⟨5, ⟨2024, 1, 14, 12, 0⟩, some 10, none, some "cancelled", 1,
          none⟩])[0]? =
      some (renderOverride ⟨2024, 1, 14, 9, 0⟩
        ⟨5, ⟨2024, 1, 14, 12, 0⟩, some 10, none, some "cancelled", 1,
          none⟩) ∧
    (compute_ncs_schedule [⟨2024, 1, 14, 9, 0⟩, ⟨2024, 1, 14, 19, 0⟩]
        [⟨1, 10, 1, true, none⟩]
        [⟨5, ⟨2024, 1, 14, 12, 0⟩, some 10, none, some "cancelled", 1,
          none⟩])[1]? =
      some (renderOverride ⟨2024, 1, 14, 19, 0⟩
        ⟨5, ⟨2024, 1, 14, 12, 0⟩, some 10, none, some "cancelled", 1,
          none⟩) ∧
    (renderOverride ⟨2024, 1, 14, 9, 0⟩
        ⟨5, ⟨2024, 1, 14, 12, 0⟩, some 10, none, some "cancelled", 1,
          none⟩).user_id =
      (renderOverride ⟨2024, 1, 14, 19, 0⟩
        ⟨5, ⟨2024, 1, 14, 12, 0⟩, some 10, none, some "cancelled", 1,
          none⟩).user_id ∧
    (renderOverride ⟨2024, 1, 14, 9, 0⟩
        ⟨5, ⟨2024, 1, 14, 12, 0⟩, some 10, none, some "cancelled", 1,
          none⟩).is_cancelled =
      (renderOverride ⟨2024, 1, 14, 19, 0⟩
        ⟨5, ⟨2024, 1, 14, 12, 0⟩, some 10, none, some "cancelled", 1,
          none⟩).is_cancelled ∧
    (renderOverride ⟨2024, 1, 14, 9, 0⟩
        ⟨5, ⟨2024, 1, 14, 12, 0⟩, some 10, none, some "cancelled", 1,
          none⟩).override_reason =
      (renderOverride ⟨2024, 1, 14, 19, 0⟩
        ⟨5, ⟨2024, 1, 14, 12, 0⟩, some 10, none, some "cancelled", 1,
          none⟩).override_reason ∧
    (renderOverride ⟨2024, 1, 14, 9, 0⟩
        ⟨5, ⟨2024, 1, 14, 12, 0⟩, some 10, none, some "cancelled", 1,
          none⟩).is_override = true :=
  claim_C8_day_keyed_override_applies_to_both
    [⟨2024, 1, 14, 9, 0⟩, ⟨2024, 1, 14, 19, 0⟩] [⟨1, 10, 1, true, none⟩]
    ⟨5, ⟨2024, 1, 14, 12, 0⟩, some 10, none, some "cancelled", 1, none⟩ 0 1
    (by decide) (by decide) (by decide) (by decide) (by decide)

/-! ## C4 -/

/-- C4 counterexample: the upsert does recompute `original_user_id` on every
call (line 412 of `ncs_rotation.py` assigns it on the update path too). With
the rotation holding user 10 at the first call and user 20 at the second,
the second call for the same `scheduled_date` with a different reason
changes the stored `original_user_id` from `some 10` to `some 20`, refuting
"leaves the stored original_user_id unchanged — the value is not recomputed
when the override is edited later". -/
theorem claim_C4_counterexample_original_user_recomputed :
    (findOverride
        (createOrUpdateOverride [⟨1, 10, 1, true, none⟩] []
          ⟨2024, 3, 4, 19, 0⟩ none (some "r1") 7 50)
        ⟨2024, 3, 4, 19, 0⟩).map (·.original_user_id) = some (some 10) ∧
    (findOverride
        (createOrUpdateOverride [⟨2, 20, 1, true, none⟩]
          (createOrUpdateOverride [⟨1, 10, 1, true, none⟩] []
            ⟨2024, 3, 4, 19, 0⟩ none (some "r1") 7 50)
          ⟨2024, 3, 4, 19, 0⟩ none (some "r2") 7 51)
        ⟨2024, 3, 4, 19, 0⟩).map (·.original_user_id) = some (some 20) ∧
    (some 10 : Option Nat) ≠ some 20 := by
  decide

/-- C4 amended: `create_or_update_override` stores an `original_user_id`
computed from the base rotation with an empty override list; a second call
for the same `(template, scheduled_date)` updates `reason` and
`replacement_user_id` and recomputes `original_user_id` from the current
base rotation — so the stored value is unchanged whenever the rotation
membership is unchanged between the two calls. -/
theorem claim_C4_upsert_updates_reason_and_recomputes_original
    (rm : List Member) (ovs : List Override) (d : DT)
    (rep1 rep2 : Option Nat) (r1 r2 : Option String) (cb nid1 nid2 : Nat)
    (hno : ∀ o ∈ ovs, o.scheduled_date ≠ d) :
    findOverride (createOrUpdateOverride rm ovs d rep1 r1 cb nid1) d =
      some ⟨nid1, d, computeOriginalUserId rm d, rep1, r1, cb, none⟩ ∧
    findOverride
        (createOrUpdateOverride rm
          (createOrUpdateOverride rm ovs d rep1 r1 cb nid1)
          d rep2 r2 cb nid2) d =
      some ⟨nid1, d, computeOriginalUserId rm d, rep2, r2, cb, none⟩ := by
  have hany : (ovs.any (fun o => o.scheduled_date = d)) = false := by
    simp only [List.any_eq_false, decide_eq_true_eq]
    exact hno
  have hfind : ovs.find? (fun o => o.scheduled_date = d) = none := by
    rw [List.find?_eq_none]
    simpa using hno
  have hstep1 :
      createOrUpdateOverride rm ovs d rep1 r1 cb nid1 =
        ovs ++ [⟨nid1, d, computeOriginalUserId rm d, rep1, r1, cb, none⟩] := by
    simp [createOrUpdateOverride, hany]
  have hfind1 :
      findOverride
          (ovs ++ [⟨nid1, d, computeOriginalUserId rm d, rep1, r1, cb, none⟩])
          d =
        some ⟨nid1, d, computeOriginalUserId rm d, rep1, r1, cb, none⟩ := by
    rw [findOverride, List.find?_append, hfind]
    simp [List.find?]
  have hany2 :
      ((ovs ++ [(⟨nid1, d, computeOriginalUserId rm d, rep1, r1, cb, none⟩ :
          Override)]).any (fun o => o.scheduled_date = d)) = true := by
    simp [List.any_append]
  have hstep2 :
      createOrUpdateOverride rm
          (ovs ++ [⟨nid1, d, computeOriginalUserId rm d, rep1, r1, cb, none⟩])
          d rep2 r2 cb nid2 =
        ovs ++ [⟨nid1, d, computeOriginalUserId rm d, rep2, r2, cb, none⟩] := by
    simp only [createOrUpdateOverride, hany2, if_pos, List.map_append]
    rw [List.map_congr_left (g := id) ?_, List.map_id]
    · simp
    · intro o ho
      simp [hno o ho]
  have hfind2 :
      findOverride
          (ovs ++ [⟨nid1, d, computeOriginalUserId rm d, rep2, r2, cb, none⟩])
          d =
        some ⟨nid1, d, computeOriginalUserId rm d, rep2, r2, cb, none⟩ := by
    rw [findOverride, List.find?_append, hfind]
    simp [List.find?]
  exact ⟨hstep1 ▸ hfind1, by rw [hstep1, hstep2]; exact hfind2⟩

/-- C4 witness: one-member rotation (user 10), first call stores
`original_user_id = some 10` with reason "away" and replacement user 20, the
second call (same membership) switches to a cancellation with reason
"cancelled" and leaves `original_user_id = some 10`. -/
theorem claim_C4_upsert_updates_reason_and_recomputes_original_witness :
    findOverride
        (createOrUpdateOverride [⟨1, 10, 1, true, none⟩] []
          ⟨2024, 3, 4, 19, 0⟩ (some 20) (some "away") 7 50)
        ⟨2024, 3, 4, 19, 0⟩ =
      some ⟨50, ⟨2024, 3, 4, 19, 0⟩, some 10, some 20, some "away", 7,
        none⟩ ∧
    findOverride
        (createOrUpdateOverride [⟨1, 10, 1, true, none⟩]
          (createOrUpdateOverride [⟨1, 10, 1, true, none⟩] []
            ⟨2024, 3, 4, 19, 0⟩ (some 20) (some "away") 7 50)
          ⟨2024, 3, 4, 19, 0⟩ none (some "cancelled") 7 51)
        ⟨2024, 3, 4, 19, 0⟩ =
      some ⟨50, ⟨2024, 3, 4, 19, 0⟩, some 10, none, some "cancelled", 7,
        none⟩ := by
  have h := claim_C4_upsert_updates_reason_and_recomputes_original
    [⟨1, 10, 1, true, none⟩] [] ⟨2024, 3, 4, 19, 0⟩ (some 20) none
    (some "away") (some "cancelled") 7 50 51 (by decide)
  exact ⟨h.1.trans (by decide), h.2.trans (by decide)⟩

/-! ## Reminder dedup invariant -/

/-- One service step preserves the dedup discipline for `key`: a key already
in the log stays there and triggers no further notifier invocation, and the
log never accumulates more than one row for the key. -/
def DedupStep (key : LogKey) (st st' : SState) : Prop :=
  (key ∈ st.log →
    key ∈ st'.log ∧ st'.invoked.count key = st.invoked.count key) ∧
  st'.log.count key ≤ max (st.log.count key) 1

theorem dedupStep_rfl (key : LogKey) (st : SState) : DedupStep key st st :=
  ⟨fun h => ⟨h, rfl⟩, le_max_left _ _⟩

theorem dedupStep_trans {key : LogKey} {st1 st2 st3 : SState}
    (h12 : DedupStep key st1 st2) (h23 : DedupStep key st2 st3) :
    DedupStep key st1 st3 := by
  refine ⟨fun h1 => ?_, ?_⟩
  · obtain ⟨h2, hc⟩ := h12.1 h1
    obtain ⟨h3, hc2⟩ := h23.1 h2
    exact ⟨h3, hc2.trans hc⟩
  · have b1 := h12.2
    have b2 := h23.2
    omega

theorem dedupStep_sendReminder (key key2 : LogKey)
    (noti : SState → LogKey → Bool) (st : SState) (hnew : key2 ∉ st.log) :
    DedupStep key st (sendReminder noti st key2) := by
  unfold sendReminder
  by_cases hn : noti st key2 <;> simp only [hn, if_true, if_false] <;>
    refine ⟨fun h => ⟨?_, ?_⟩, ?_⟩
  · exact List.mem_append_left _ h
  · have hne : key2 ≠ key := fun he => hnew (he ▸ h)
    simp [List.count_append, List.count_singleton', hne]
  · by_cases he : key2 = key
    · subst he
      have h0 : st.log.count key2 = 0 := List.count_eq_zero.mpr hnew
      simp [List.count_append, h0]
    · simp [List.count_append, List.count_singleton', he]
  · exact h
  · have hne : key2 ≠ key := fun he => hnew (he ▸ h)
    simp [List.count_append, List.count_singleton', hne]
  · exact le_max_left _ _

theorem dedupStep_foldl {β : Type} (key : LogKey) (f : SState → β → SState)
    (hf : ∀ st b, DedupStep key st (f st b)) :
    ∀ (l : List β) (st : SState), DedupStep key st (l.foldl f st) := by
  intro l
  induction l with
  | nil => intro st; exact dedupStep_rfl key st
  | cons b bs ih =>
    intro st
    rw [List.foldl_cons]
    exact dedupStep_trans (hf st b) (ih (f st b))

theorem dedupStep_offsetStep (key : LogKey)
    (noti : SState → LogKey → Bool) (users : List UserRec)
    (template_id uid : Nat) (scheduled_dt now : DT) (st : SState)
    (r : Nat) :
    DedupStep key st
      (offsetStep noti users template_id uid scheduled_dt now st r) := by
  unfold offsetStep
  by_cases hw : withinWindow (minutesUntil now scheduled_dt) r
  · rw [if_pos hw]
    by_cases hs : reminderAlreadySent st
        ⟨template_id, uid, scheduled_dt.dayKey, reminderType r⟩
    · rw [if_pos hs]
      exact dedupStep_rfl key st
    · rw [if_neg hs]
      have hnew :
          (⟨template_id, uid, scheduled_dt.dayKey, reminderType r⟩ :
            LogKey) ∉ st.log := fun hmem => hs (List.elem_iff.mpr hmem)
      cases hfind : users.find? (fun u => u.id = uid) with
      | none => exact dedupStep_rfl key st
      | some u =>
        show DedupStep key st
          (if emailPresent u.email = true then
            sendReminder noti st
              ⟨template_id, uid, scheduled_dt.dayKey, reminderType r⟩
          else st)
        by_cases he : emailPresent u.email
        · rw [if_pos he]
          exact dedupStep_sendReminder key _ noti st hnew
        · rw [if_neg he]
          exact dedupStep_rfl key st
  · rw [if_neg hw]
    exact dedupStep_rfl key st

theorem dedupStep_processEntry (key : LogKey)
    (noti : SState → LogKey → Bool) (users : List UserRec)
    (template_id : Nat) (now : DT) (st : SState) (e : SEntry) :
    DedupStep key st (processEntry noti users template_id now st e) := by
  unfold processEntry
  split
  · exact dedupStep_rfl key st
  · cases e.date with
    | none => exact dedupStep_rfl key st
    | some scheduled_dt =>
      exact dedupStep_foldl key
        (offsetStep noti users template_id (e.user_id.getD 0) scheduled_dt
          now)
        (fun st r => dedupStep_offsetStep key noti users template_id
          (e.user_id.getD 0) scheduled_dt now st r) REMINDER_HOURS st

theorem dedupStep_processTemplate (key : LogKey)
    (compute : RTemplate → Except String (List SEntry))
    (noti : SState → LogKey → Bool) (users : List UserRec) (now : DT)
    (st : SState) (t : RTemplate) :
    DedupStep key st (processTemplate compute noti users now st t) := by
  unfold processTemplate
  split
  · exact dedupStep_rfl key st
  · cases compute t with
    | error e => exact ⟨fun h => ⟨h, rfl⟩, le_max_left _ _⟩
    | ok schedule =>
      exact dedupStep_foldl key (processEntry noti users t.id now)
        (fun st e => dedupStep_processEntry key noti users t.id now st e)
        schedule st

theorem dedupStep_checkAndSend (key : LogKey)
    (compute : RTemplate → Except String (List SEntry))
    (noti : SState → LogKey → Bool) (users : List UserRec) (now : DT)
    (templates : List RTemplate) (st : SState) :
    DedupStep key st
      (checkAndSendReminders compute noti users now templates st) := by
  unfold checkAndSendReminders
  exact dedupStep_foldl key (processTemplate compute noti users now)
    (fun st t => dedupStep_processTemplate key compute noti users now st t)
    (templates.filter (·.is_active)) st

theorem dedupStep_runPolls (key : LogKey)
    (compute : RTemplate → Except String (List SEntry))
    (noti : SState → LogKey → Bool) (users : List UserRec)
    (polls : List (List RTemplate × DT)) (st : SState) :
    DedupStep key st (runPolls compute noti users polls st) := by
  unfold runPolls
  apply dedupStep_foldl
  intro st2 p
  exact dedupStep_checkAndSend key compute noti users p.2 p.1 st2

/-! ## C3 -/

/-- C3: if an `NCSReminderLog` row for `(template, user, day, type)` exists
when a poll evaluates an entry, the notifier is not invoked again for that
combination (its invocation count is unchanged, both for one entry
evaluation and across any sequence of polls); and across any sequence of
polls, the log never accumulates more than one row for the combination, so
the same combination is never successfully sent twice. -/
theorem claim_C3_reminder_dedup
    (compute : RTemplate → Except String (List SEntry))
    (noti : SState → LogKey → Bool) (users : List UserRec) (key : LogKey) :
    (∀ (template_id : Nat) (now : DT) (st : SState) (e : SEntry),
      key ∈ st.log →
      (processEntry noti users template_id now st e).invoked.count key =
        st.invoked.count key) ∧
    (∀ (polls : List (List RTemplate × DT)) (st : SState),
      key ∈ st.log →
      (runPolls compute noti users polls st).invoked.count key =
        st.invoked.count key) ∧
    (∀ (polls : List (List RTemplate × DT)) (st : SState),
      (runPolls compute noti users polls st).log.count key ≤
        max (st.log.count key) 1) :=
  ⟨fun tid now st e h =>
      ((dedupStep_processEntry key noti users tid now st e).1 h).2,
   fun polls st h =>
      ((dedupStep_runPolls key compute noti users polls st).1 h).2,
   fun polls st => (dedupStep_runPolls key compute noti users polls st).2⟩

/-- C3 witness: with the key `(template 1, user 10, 2024-01-02, "24h")`
already logged, an entry for user 10 at 2024-01-02 19:00 evaluated at
2024-01-01 19:00 (exactly 24 hours ahead, inside the window) leaves the
notifier invocation count unchanged, as does a whole poll over an active
template; and the log keeps at most one row for the key. -/
theorem claim_C3_reminder_dedup_witness :
    (processEntry (fun _ _ => true) [⟨10, none, none, some "a@b.c"⟩] 1
        ⟨2024, 1, 1, 19, 0⟩
        ⟨[⟨1, 10, (2024, 1, 2), "24h"⟩], [], []⟩
        ⟨some 10, false, some ⟨2024, 1, 2, 19, 0⟩⟩).invoked.count
        ⟨1, 10, (2024, 1, 2), "24h"⟩ =
      (⟨[⟨1, 10, (2024, 1, 2), "24h"⟩], [], []⟩ :
        SState).invoked.count ⟨1, 10, (2024, 1, 2), "24h"⟩ ∧
    (runPolls (fun _ => Except.ok
          [⟨some 10, false, some ⟨2024, 1, 2, 19, 0⟩⟩])
        (fun _ _ => true) [⟨10, none, none, some "a@b.c"⟩]
        [([activeTemplateOne], ⟨2024, 1, 1, 19, 0⟩)]
        ⟨[⟨1, 10, (2024, 1, 2), "24h"⟩], [], []⟩).invoked.count
        ⟨1, 10, (2024, 1, 2), "24h"⟩ =
      (⟨[⟨1, 10, (2024, 1, 2), "24h"⟩], [], []⟩ :
        SState).invoked.count ⟨1, 10, (2024, 1, 2), "24h"⟩ ∧
    (runPolls (fun _ => Except.ok
          [⟨some 10, false, some ⟨2024, 1, 2, 19, 0⟩⟩])
        (fun _ _ => true) [⟨10, none, none, some "a@b.c"⟩]
        [([activeTemplateOne], ⟨2024, 1, 1, 19, 0⟩)]
        ⟨[⟨1, 10, (2024, 1, 2), "24h"⟩], [], []⟩).log.count
        ⟨1, 10, (2024, 1, 2), "24h"⟩ ≤
      max ((⟨[⟨1, 10, (2024, 1, 2), "24h"⟩], [], []⟩ :
        SState).log.count ⟨1, 10, (2024, 1, 2), "24h"⟩) 1 :=
  have h := claim_C3_reminder_dedup
    (fun _ => Except.ok [⟨some 10, false, some ⟨2024, 1, 2, 19, 0⟩⟩])
    (fun _ _ => true) [⟨10, none, none, some "a@b.c"⟩]
    ⟨1, 10, (2024, 1, 2), "24h"⟩
  ⟨h.1 1 ⟨2024, 1, 1, 19, 0⟩ ⟨[⟨1, 10, (2024, 1, 2), "24h"⟩], [], []⟩
      ⟨some 10, false, some ⟨2024, 1, 2, 19, 0⟩⟩ (by decide),
   h.2.1 [([activeTemplateOne], ⟨2024, 1, 1, 19, 0⟩)]
      ⟨[⟨1, 10, (2024, 1, 2), "24h"⟩], [], []⟩ (by decide),
   h.2.2 [([activeTemplateOne], ⟨2024, 1, 1, 19, 0⟩)]
      ⟨[⟨1, 10, (2024, 1, 2), "24h"⟩], [], []⟩⟩

/-! ## C2 -/

theorem processTemplate_service_state (noti : SState → LogKey → Bool)
    (users : List UserRec) (now : DT) (st : SState) (t : RTemplate) :
    (processTemplate serviceComputeSchedule noti users now st t).log =
        st.log ∧
    (processTemplate serviceComputeSchedule noti users now st t).invoked =
        st.invoked := by
  have hbind : serviceCallBindsOk = false := by decide
  by_cases hm : t.rotation_members.isEmpty
  · simp [processTemplate, hm]
  · simp [processTemplate, serviceComputeSchedule, hm, hbind]

theorem foldl_service_state (noti : SState → LogKey → Bool)
    (users : List UserRec) (now : DT) :
    ∀ (ts : List RTemplate) (st : SState),
      (ts.foldl (processTemplate serviceComputeSchedule noti users now)
          st).log = st.log ∧
      (ts.foldl (processTemplate serviceComputeSchedule noti users now)
          st).invoked = st.invoked := by
  intro ts
  induction ts with
  | nil => intro st; exact ⟨rfl, rfl⟩
  | cons t ts ih =>
    intro st
    rw [List.foldl_cons]
    obtain ⟨h1, h2⟩ := ih (processTemplate serviceComputeSchedule noti users
      now st t)
    obtain ⟨g1, g2⟩ := processTemplate_service_state noti users now st t
    exact ⟨h1.trans g1, h2.trans g2⟩

/-- C2: the reminder poll as coded can never send or log anything. The call
of `ncs_reminder_service.py` line 90 passes `(db, template.id, weeks=1)` to
a function whose parameters are `(template, dates, rotation_members,
overrides)`; the binding check fails (`serviceCallBindsOk = false`), the
resulting `TypeError` is caught per template, and so — contrary to the
claim, under which eligible entries trigger the injected send operation and
a `ReminderLog` insert — no poll ever invokes the notifier or inserts a log
row, whatever the templates, users, clock and prior state. -/
theorem claim_C2_reminder_send_never_reached :
    serviceCallBindsOk = false ∧
    ∀ (noti : SState → LogKey → Bool) (users : List UserRec) (now : DT)
      (templates : List RTemplate) (st : SState),
      (checkAndSendReminders serviceComputeSchedule noti users now
          templates st).log = st.log ∧
      (checkAndSendReminders serviceComputeSchedule noti users now
          templates st).invoked = st.invoked := by
  refine ⟨by decide, ?_⟩
  intro noti users now templates st
  unfold checkAndSendReminders
  exact foldl_service_state noti users now (templates.filter (·.is_active))
    st

/-! ## C6 -/

/-- C6: a failure raised while computing one template's schedule is caught
and logged, that template alone is skipped, and the poll continues with the
remaining templates exactly as it would have started from the error-logged
state; and no error raised by a poll body terminates the reminder loop —
an erroring iteration just logs and the loop proceeds with the remaining
iterations. -/
theorem claim_C6_per_item_errors_isolated
    (compute : RTemplate → Except String (List SEntry))
    (noti : SState → LogKey → Bool) (users : List UserRec) (now : DT)
    (t : RTemplate) (ts : List RTemplate) (st : SState) (msg : String)
    (herr : compute t = Except.error msg) (hactive : t.is_active = true)
    (hmem : t.rotation_members ≠ []) :
    checkAndSendReminders compute noti users now (t :: ts) st =
      checkAndSendReminders compute noti users now ts
        { st with errors := st.errors ++ [msg] } ∧
    ∀ (body : SState → Except String SState) (n : Nat) (st2 : SState)
      (e : String),
      body st2 = Except.error e →
      runLoop body (n + 1) st2 =
        runLoop body n { st2 with errors := st2.errors ++ [e] } := by
  constructor
  · unfold checkAndSendReminders
    rw [List.filter_cons]
    simp only [hactive, decide_True, if_true, List.foldl_cons]
    have hpt : processTemplate compute noti users now st t =
        { st with errors := st.errors ++ [msg] } := by
      unfold processTemplate
      rw [isEmpty_false_of_ne_nil hmem]
      simp only [Bool.false_eq_true, if_false]
      rw [herr]
    rw [hpt]
  · intro body n st2 e hb
    simp only [runLoop, hb]

/-- C6 witness: with a computation that fails on template 1, a poll over
templates 1 and 2 equals the poll over template 2 alone started from the
error-logged state, and one erroring loop iteration reduces to the
remaining iterations on the error-logged state. -/
theorem claim_C6_per_item_errors_isolated_witness :
    checkAndSendReminders failingCompute (fun _ _ => true) [] ⟨2024, 1, 1, 0, 0⟩
        [activeTemplateOne, activeTemplateTwo] ⟨[], [], []⟩ =
      checkAndSendReminders failingCompute (fun _ _ => true) []
        ⟨2024, 1, 1, 0, 0⟩ [activeTemplateTwo] ⟨[], [], ["boom"]⟩ ∧
    runLoop (fun _ => Except.error "down") 1 ⟨[], [], []⟩ =
      runLoop (fun _ => Except.error "down") 0 ⟨[], [], ["down"]⟩ :=
  have h := claim_C6_per_item_errors_isolated failingCompute
    (fun _ _ => true) [] ⟨2024, 1, 1, 0, 0⟩ activeTemplateOne
    [activeTemplateTwo] ⟨[], [], []⟩ "boom" rfl rfl (by decide)
  ⟨h.1, h.2 (fun _ => Except.error "down") 0 ⟨[], [], []⟩ "down" rfl⟩

/-! ## C5: calendar lemmas -/

theorem daysInMonth_ge_28 (y m : Nat) : 28 ≤ daysInMonth y m := by
  unfold daysInMonth
  repeat' split
  all_goals omega

theorem addMonths_hour (t : DT) (k : Nat) : (t.addMonths k).hour = t.hour :=
  rfl

theorem addMonths_minute (t : DT) (k : Nat) :
    (t.addMonths k).minute = t.minute := rfl

theorem addMonths_monthIdx (t : DT) (k : Nat) :
    (t.addMonths k).monthIdx = t.monthIdx + k := by
  simp only [DT.addMonths, DT.monthIdx]
  have := Nat.div_add_mod (t.year * 12 + (t.month - 1) + k) 12
  omega

theorem addMonths_month_ge (t : DT) (k : Nat) : 1 ≤ (t.addMonths k).month := by
  simp only [DT.addMonths]
  omega

theorem addMonths_month_le (t : DT) (k : Nat) : (t.addMonths k).month ≤ 12 := by
  simp only [DT.addMonths]
  omega

theorem addMonths_day_one (t : DT) (k : Nat) (h : t.day = 1) :
    (t.addMonths k).day = 1 := by
  simp only [DT.addMonths, h]
  have h28 := daysInMonth_ge_28 ((t.year * 12 + (t.month - 1) + k) / 12)
    ((t.year * 12 + (t.month - 1) + k) % 12 + 1)
  omega

/-- The month iteration of the outer monthly loop:
`iterAddMonths k t` is `t` advanced by one month `k` times. -/
def iterAddMonths : Nat → DT → DT
  | 0, t => t
  | k + 1, t => iterAddMonths k (t.addMonths 1)

theorem iterAddMonths_monthIdx (k : Nat) (t : DT) :
    (iterAddMonths k t).monthIdx = t.monthIdx + k := by
  induction k generalizing t with
  | zero => rfl
  | succ k ih =>
    show (iterAddMonths k (t.addMonths 1)).monthIdx = t.monthIdx + (k + 1)
    rw [ih (t.addMonths 1), addMonths_monthIdx]
    omega

theorem iterAddMonths_hour (k : Nat) (t : DT) :
    (iterAddMonths k t).hour = t.hour := by
  induction k generalizing t with
  | zero => rfl
  | succ k ih =>
    show (iterAddMonths k (t.addMonths 1)).hour = t.hour
    rw [ih (t.addMonths 1), addMonths_hour]

theorem iterAddMonths_minute (k : Nat) (t : DT) :
    (iterAddMonths k t).minute = t.minute := by
  induction k generalizing t with
  | zero => rfl
  | succ k ih =>
    show (iterAddMonths k (t.addMonths 1)).minute = t.minute
    rw [ih (t.addMonths 1), addMonths_minute]

theorem iterAddMonths_day_one (k : Nat) (t : DT) (h : t.day = 1) :
    (iterAddMonths k t).day = 1 := by
  induction k generalizing t with
  | zero => exact h
  | succ k ih =>
    show (iterAddMonths k (t.addMonths 1)).day = 1
    exact ih (t.addMonths 1) (addMonths_day_one t 1 h)

theorem iterAddMonths_month_bounds (k : Nat) (t : DT)
    (h1 : 1 ≤ t.month) (h2 : t.month ≤ 12) :
    1 ≤ (iterAddMonths k t).month ∧ (iterAddMonths k t).month ≤ 12 := by
  induction k generalizing t with
  | zero => exact ⟨h1, h2⟩
  | succ k ih =>
    show 1 ≤ (iterAddMonths k (t.addMonths 1)).month ∧ _
    exact ih (t.addMonths 1) (addMonths_month_ge t 1) (addMonths_month_le t 1)

/-- `DT.ble` unfolded to a lexicographic proposition. -/
theorem ble_eq_true_iff (a b : DT) : a.ble b = true ↔
    (a.year < b.year ∨ (a.year = b.year ∧ (a.month < b.month ∨
      (a.month = b.month ∧ (a.day < b.day ∨ (a.day = b.day ∧
        (a.hour < b.hour ∨ (a.hour = b.hour ∧
          a.minute ≤ b.minute)))))))) := by
  unfold DT.ble
  split_ifs <;> simp <;> omega

/-- A first-of-month datetime is `<=` any structurally valid datetime of the
same or a later month that carries the same time of day. -/
theorem ble_of_firstday_monthIdx_le (a b : DT)
    (ha1 : 1 ≤ a.month) (ha2 : a.month ≤ 12)
    (hb1 : 1 ≤ b.month) (hb2 : b.month ≤ 12)
    (hd : a.day = 1) (hbd : 1 ≤ b.day)
    (hh : a.hour = b.hour) (hm : a.minute = b.minute)
    (h : a.monthIdx ≤ b.monthIdx) : a.ble b = true := by
  unfold DT.monthIdx at h
  rw [ble_eq_true_iff]
  omega

/-- A datetime of a strictly earlier month is `<=` (indeed `<`) any datetime
of a later month, whatever the day and time fields. -/
theorem ble_of_monthIdx_lt (a b : DT)
    (ha1 : 1 ≤ a.month) (ha2 : a.month ≤ 12)
    (hb1 : 1 ≤ b.month) (hb2 : b.month ≤ 12)
    (h : a.monthIdx < b.monthIdx) : a.ble b = true := by
  unfold DT.monthIdx at h
  rw [ble_eq_true_iff]
  omega

theorem monthIdx_le_of_ble (a b : DT)
    (ha1 : 1 ≤ a.month) (ha2 : a.month ≤ 12)
    (hb1 : 1 ≤ b.month) (hb2 : b.month ≤ 12)
    (h : a.ble b = true) : a.monthIdx ≤ b.monthIdx := by
  rw [ble_eq_true_iff] at h
  unfold DT.monthIdx
  omega

theorem pythonWeekday_lt_7 (d : Int) : pythonWeekday d < 7 := by
  unfold pythonWeekday
  split <;> omega

theorem weekOccurrences_ne_nil (y m w : Nat) (hw : w < 7) :
    weekOccurrences y m w ≠ [] := by
  apply List.ne_nil_of_mem
    (a := (w + 6 - (dayOrdinal y m 0 + 6) % 7) % 7 + 1)
  unfold weekOccurrences
  refine List.mem_filter.mpr ⟨?_, ?_⟩
  · refine List.mem_map.mpr
      ⟨(w + 6 - (dayOrdinal y m 0 + 6) % 7) % 7, ?_, rfl⟩
    refine List.mem_range.mpr ?_
    have := daysInMonth_ge_28 y m
    omega
  · have hx : weekdayOf y m
        ((w + 6 - (dayOrdinal y m 0 + 6) % 7) % 7 + 1) = w := by
      unfold weekdayOf dayOrdinal
      omega
    simp [hx]

theorem weekOccurrences_sorted (y m w : Nat) :
    (weekOccurrences y m w).Pairwise (· < ·) :=
  List.Pairwise.filter _
    (List.Pairwise.map (· + 1)
      (fun a b h => by simpa using Nat.succ_lt_succ h)
      (List.pairwise_lt_range _))

theorem weekOccurrences_mem (y m w x : Nat) (h : x ∈ weekOccurrences y m w) :
    1 ≤ x ∧ x ≤ daysInMonth y m ∧ weekdayOf y m x = w := by
  unfold weekOccurrences at h
  obtain ⟨hmem, hpred⟩ := List.mem_filter.mp h
  obtain ⟨a, ha, rfl⟩ := List.mem_map.mp hmem
  have hr := List.mem_range.mp ha
  simp only [beq_iff_eq] at hpred
  exact ⟨by omega, by omega, hpred⟩

theorem le_getLast_of_pairwise_lt (l : List Nat) (hp : l.Pairwise (· < ·))
    (x last : Nat) (hx : x ∈ l) (hl : l.getLast? = some last) : x ≤ last := by
  induction l with
  | nil => cases hx
  | cons a t ih =>
    cases t with
    | nil =>
      simp at hl hx
      omega
    | cons b t2 =>
      rw [List.getLast?_cons_cons] at hl
      rcases List.mem_cons.mp hx with rfl | hx2
      · have hlast_mem : last ∈ b :: t2 := List.mem_of_mem_getLast? hl
        have := (List.pairwise_cons.mp hp).1 last hlast_mem
        omega
      · exact ih (List.Pairwise.of_cons hp) hx2 hl

theorem getLast?_of_ne_nil {α : Type} (l : List α) (h : l ≠ []) :
    ∃ a, l.getLast? = some a := by
  cases hg : l.getLast? with
  | none => exact absurd (List.getLast?_eq_none_iff.mp hg) h
  | some a => exact ⟨a, rfl⟩

theorem addMonths_day_ge_one (t : DT) (k : Nat) (h : 1 ≤ t.day) :
    1 ≤ (t.addMonths k).day := by
  simp only [DT.addMonths]
  have := daysInMonth_ge_28 ((t.year * 12 + (t.month - 1) + k) / 12)
    ((t.year * 12 + (t.month - 1) + k) % 12 + 1)
  omega

/-- The schedule entry the monthly expansion produces for selector 5 in
month `(y, m)`: the last day of that month whose weekday is `w`, at the
configured time. -/
def lastOccDT (y m w hour minute : Nat) : DT :=
  ⟨y, m, (weekOccurrences y m w).getLastD 0, hour, minute⟩

theorem monthEntries_five (cur : DT) (w hour minute : Nat) (hw : w < 7) :
    monthEntries cur w hour minute [5] =
      [lastOccDT cur.year cur.month w hour minute] := by
  obtain ⟨lday, hl⟩ := getLast?_of_ne_nil _
    (weekOccurrences_ne_nil cur.year cur.month w hw)
  unfold monthEntries lastOccDT
  simp [List.flatMap_cons, hl, List.getLastD_eq_getLast?]

theorem monthEntries_fields (cur : DT) (w hour minute : Nat)
    (weeks : List Int) (d : DT)
    (h : d ∈ monthEntries cur w hour minute weeks) :
    d.year = cur.year ∧ d.month = cur.month ∧ d.hour = hour ∧
      d.minute = minute := by
  unfold monthEntries at h
  obtain ⟨wn, hwn, hd⟩ := List.mem_flatMap.mp h
  by_cases h5 : wn = 5
  · rw [if_pos h5] at hd
    cases hg : (weekOccurrences cur.year cur.month w).getLast? with
    | none => rw [hg] at hd; cases hd
    | some a =>
      rw [hg] at hd
      simp only [List.mem_singleton] at hd
      subst hd
      exact ⟨rfl, rfl, rfl, rfl⟩
  · rw [if_neg h5] at hd
    by_cases hr : 1 ≤ wn ∧ wn ≤ ((weekOccurrences cur.year cur.month
        w).length : Int)
    · rw [if_pos hr] at hd
      cases hg : (weekOccurrences cur.year cur.month w).get?
          (wn - 1).toNat with
      | none => rw [hg] at hd; cases hd
      | some a =>
        rw [hg] at hd
        simp only [List.mem_singleton] at hd
        subst hd
        exact ⟨rfl, rfl, rfl, rfl⟩
    · rw [if_neg hr] at hd
      cases hd

theorem monthlyLoop_mem (fuel : Nat) (cur endD : DT) (w hour minute : Nat)
    (weeks : List Int) (d : DT)
    (h : d ∈ monthlyLoop fuel cur endD w hour minute weeks) :
    ∃ k, d ∈ monthEntries (iterAddMonths k cur) w hour minute weeks ∧
      (iterAddMonths k cur).ble endD = true := by
  induction fuel generalizing cur with
  | zero => cases h
  | succ f ih =>
    unfold monthlyLoop at h
    by_cases hb : cur.ble endD = true
    · rw [if_pos hb] at h
      rcases List.mem_append.mp h with h1 | h2
      · exact ⟨0, h1, hb⟩
      · obtain ⟨k, hk1, hk2⟩ := ih (cur.addMonths 1) h2
        exact ⟨k + 1, hk1, hk2⟩
    · rw [if_neg hb] at h
      cases h

theorem monthlyLoop_monthIdx_lb (fuel : Nat) (cur endD : DT)
    (w hour minute : Nat) (weeks : List Int) (d : DT)
    (h : d ∈ monthlyLoop fuel cur endD w hour minute weeks) :
    cur.monthIdx ≤ d.monthIdx := by
  obtain ⟨k, hk, _⟩ := monthlyLoop_mem fuel cur endD w hour minute weeks d h
  obtain ⟨hy, hm, _, _⟩ :=
    monthEntries_fields (iterAddMonths k cur) w hour minute weeks d hk
  have hidx : d.monthIdx = (iterAddMonths k cur).monthIdx := by
    unfold DT.monthIdx
    rw [hy, hm]
  rw [hidx, iterAddMonths_monthIdx]
  omega

theorem monthlyLoop_pairwise_five (fuel : Nat) (cur endD : DT)
    (w hour minute : Nat) (hw : w < 7) :
    (monthlyLoop fuel cur endD w hour minute [5]).Pairwise
      (fun a b => a.monthIdx < b.monthIdx) := by
  induction fuel generalizing cur with
  | zero => exact List.Pairwise.nil
  | succ f ih =>
    unfold monthlyLoop
    by_cases hb : cur.ble endD = true
    · rw [if_pos hb, List.pairwise_append]
      refine ⟨?_, ih (cur.addMonths 1), ?_⟩
      · rw [monthEntries_five cur w hour minute hw]
        exact List.pairwise_singleton _ _
      · intro a ha b hbm
        obtain ⟨hy, hm, _, _⟩ :=
          monthEntries_fields cur w hour minute [5] a ha
        have ha_idx : a.monthIdx = cur.monthIdx := by
          unfold DT.monthIdx
          rw [hy, hm]
        have hb_idx := monthlyLoop_monthIdx_lb f (cur.addMonths 1) endD
          w hour minute [5] b hbm
        rw [addMonths_monthIdx] at hb_idx
        omega
    · rw [if_neg hb]
      exact List.Pairwise.nil

theorem monthEntries_subset_monthlyLoop (weeks : List Int)
    (w hour minute : Nat) (endD : DT) :
    ∀ (k fuel : Nat) (cur : DT), k < fuel →
      (∀ j, j ≤ k → (iterAddMonths j cur).ble endD = true) →
      ∀ d ∈ monthEntries (iterAddMonths k cur) w hour minute weeks,
        d ∈ monthlyLoop fuel cur endD w hour minute weeks := by
  intro k
  induction k with
  | zero =>
    intro fuel cur hf hble d hd
    cases fuel with
    | zero => omega
    | succ f =>
      unfold monthlyLoop
      rw [if_pos (show cur.ble endD = true from hble 0 (Nat.le_refl 0))]
      exact List.mem_append_left _ hd
  | succ k ih =>
    intro fuel cur hf hble d hd
    cases fuel with
    | zero => omega
    | succ f =>
      unfold monthlyLoop
      rw [if_pos (show cur.ble endD = true from hble 0 (Nat.zero_le _))]
      refine List.mem_append_right _ ?_
      refine ih f (cur.addMonths 1) (by omega) ?_ d hd
      intro j hj
      exact hble (j + 1) (by omega)

theorem monthlyLoop_five_canonical (fuel : Nat) (cur endD : DT)
    (w hour minute : Nat) (hw : w < 7) (d : DT)
    (h : d ∈ monthlyLoop fuel cur endD w hour minute [5]) :
    d = lastOccDT d.year d.month w hour minute := by
  obtain ⟨k, hk, _⟩ := monthlyLoop_mem fuel cur endD w hour minute [5] d h
  rw [monthEntries_five _ w hour minute hw] at hk
  simp only [List.mem_singleton] at hk
  subst hk
  rfl

theorem countP_le_one_of_pairwise {α : Type} (p : α → Bool) (l : List α)
    (h : l.Pairwise (fun a b => ¬(p a = true ∧ p b = true))) :
    l.countP p ≤ 1 := by
  induction l with
  | nil => simp
  | cons a t ih =>
    rw [List.countP_cons]
    by_cases hp : p a = true
    · have h0 : t.countP p = 0 := List.countP_eq_zero.mpr
        (fun b hb hpb => ((List.pairwise_cons.mp h).1 b hb) ⟨hp, hpb⟩)
      simp [hp, h0]
    · have ht := ih (List.Pairwise.of_cons h)
      simp only [hp, if_neg]
      simpa using ht

/-- The monthly expansion pipeline for selector list `[5]`, as a function of
the already-extracted configuration pieces. -/
def monthlyFiveDates (start : DT) (n w hour minute : Nat) : List DT :=
  List.insertionSort (fun a b => a.ble b = true)
    ((monthlyLoop (n + 2) start.firstOfMonth (start.addMonths n) w hour
      minute [5]).filter (fun d => start.ble d))

theorem calculate_eq_monthlyFiveDates (t : RTemplate) (start : DT) (n : Nat)
    (hty : t.schedule_type = .monthly)
    (hwom : t.schedule_config.week_of_month = some [5]) :
    calculate_schedule_dates t start n =
      monthlyFiveDates start n
        (pythonWeekday (t.schedule_config.day_of_week.getD 0))
        (configTime t.schedule_config).1 (configTime t.schedule_config).2 := by
  unfold calculate_schedule_dates monthlyFiveDates
  simp only [hty, hwom, Option.getD_some]
  rfl

theorem monthlyFiveDates_perm (start : DT) (n w hour minute : Nat) :
    (monthlyFiveDates start n w hour minute).Perm
      ((monthlyLoop (n + 2) start.firstOfMonth (start.addMonths n) w hour
        minute [5]).filter (fun d => start.ble d)) :=
  List.perm_insertionSort _ _

theorem monthlyFiveDates_canonical (start : DT) (n w hour minute : Nat)
    (hw7 : w < 7) (d : DT) (hd : d ∈ monthlyFiveDates start n w hour minute) :
    (weekOccurrences d.year d.month w).getLast? = some d.day ∧
    weekdayOf d.year d.month d.day = w ∧
    (∀ x ∈ weekOccurrences d.year d.month w, x ≤ d.day) ∧
    d.hour = hour ∧ d.minute = minute := by
  have hdF := (monthlyFiveDates_perm start n w hour minute).mem_iff.mp hd
  obtain ⟨hdL, hble⟩ := List.mem_filter.mp hdF
  have hcan := monthlyLoop_five_canonical (n + 2) start.firstOfMonth
    (start.addMonths n) w hour minute hw7 d hdL
  obtain ⟨a, ha⟩ := getLast?_of_ne_nil _
    (weekOccurrences_ne_nil d.year d.month w hw7)
  have hd_day : d.day = (weekOccurrences d.year d.month w).getLastD 0 := by
    conv_lhs => rw [hcan]
    rfl
  have hda : d.day = a := by
    rw [hd_day, List.getLastD_eq_getLast?, ha]
    rfl
  have hgl : (weekOccurrences d.year d.month w).getLast? = some d.day := by
    rw [ha, hda]
  have hmem : d.day ∈ weekOccurrences d.year d.month w := by
    rw [hda]
    exact List.mem_of_mem_getLast? ha
  refine ⟨hgl, (weekOccurrences_mem d.year d.month w d.day hmem).2.2, ?_,
    ?_, ?_⟩
  · intro x hx
    exact le_getLast_of_pairwise_lt _ (weekOccurrences_sorted d.year d.month
      w) x d.day hx hgl
  · conv_lhs => rw [hcan]
    rfl
  · conv_lhs => rw [hcan]
    rfl

theorem monthlyFiveDates_at_most_one_per_month (start : DT)
    (n w hour minute : Nat) (hw7 : w < 7) (y m : Nat) :
    (monthlyFiveDates start n w hour minute).countP
      (fun d => d.year = y && d.month = m) ≤ 1 := by
  rw [(monthlyFiveDates_perm start n w hour minute).countP_eq]
  apply countP_le_one_of_pairwise
  have hpair := monthlyLoop_pairwise_five (n + 2) start.firstOfMonth
    (start.addMonths n) w hour minute hw7
  refine (hpair.filter _).imp ?_
  intro a b hab hcontra
  obtain ⟨hpa, hpb⟩ := hcontra
  simp only [Bool.and_eq_true, decide_eq_true_eq] at hpa hpb
  have heq : a.monthIdx = b.monthIdx := by
    unfold DT.monthIdx
    rw [hpa.1, hpa.2, hpb.1, hpb.2]
  omega

theorem monthlyFiveDates_coverage (start : DT) (n w hour minute : Nat)
    (hw7 : w < 7) (hv : start.Valid) (k : Nat) (hk : k ≤ n) :
    (start.ble (lastOccDT (iterAddMonths k start.firstOfMonth).year
        (iterAddMonths k start.firstOfMonth).month w hour minute) = true →
      lastOccDT (iterAddMonths k start.firstOfMonth).year
        (iterAddMonths k start.firstOfMonth).month w hour minute ∈
        monthlyFiveDates start n w hour minute) ∧
    (start.ble (lastOccDT (iterAddMonths k start.firstOfMonth).year
        (iterAddMonths k start.firstOfMonth).month w hour minute) = false →
      (monthlyFiveDates start n w hour minute).countP
        (fun d => d.year = (iterAddMonths k start.firstOfMonth).year &&
          d.month = (iterAddMonths k start.firstOfMonth).month) = 0) ∧
    (1 ≤ k →
      start.ble (lastOccDT (iterAddMonths k start.firstOfMonth).year
        (iterAddMonths k start.firstOfMonth).month w hour minute) = true) := by
  obtain ⟨hv1, hv2, hv3, hv4⟩ := hv
  have hfb1 : 1 ≤ start.firstOfMonth.month := hv1
  have hfb2 : start.firstOfMonth.month ≤ 12 := hv2
  have hcurb := iterAddMonths_month_bounds k start.firstOfMonth hfb1 hfb2
  have hmidx : (iterAddMonths k start.firstOfMonth).monthIdx =
      start.monthIdx + k := by
    rw [iterAddMonths_monthIdx]
    rfl
  refine ⟨?_, ?_, ?_⟩
  · intro hbleK
    have hmem : lastOccDT (iterAddMonths k start.firstOfMonth).year
        (iterAddMonths k start.firstOfMonth).month w hour minute ∈
        monthEntries (iterAddMonths k start.firstOfMonth) w hour minute
          [5] := by
      rw [monthEntries_five (iterAddMonths k start.firstOfMonth) w hour
        minute hw7]
      exact List.mem_singleton.mpr rfl
    have hble_all : ∀ j, j ≤ k →
        (iterAddMonths j start.firstOfMonth).ble (start.addMonths n) =
          true := by
      intro j hj
      have hjb := iterAddMonths_month_bounds j start.firstOfMonth hfb1 hfb2
      apply ble_of_firstday_monthIdx_le
      · exact hjb.1
      · exact hjb.2
      · exact addMonths_month_ge start n
      · exact addMonths_month_le start n
      · exact iterAddMonths_day_one j _ rfl
      · exact addMonths_day_ge_one start n hv3
      · rw [iterAddMonths_hour, addMonths_hour]
        rfl
      · rw [iterAddMonths_minute, addMonths_minute]
        rfl
      · rw [iterAddMonths_monthIdx, addMonths_monthIdx]
        have hfm : start.firstOfMonth.monthIdx = start.monthIdx := rfl
        omega
    have hL := monthEntries_subset_monthlyLoop [5] w hour minute
      (start.addMonths n) k (n + 2) start.firstOfMonth (by omega) hble_all
      _ hmem
    exact (monthlyFiveDates_perm start n w hour minute).mem_iff.mpr
      (List.mem_filter.mpr ⟨hL, hbleK⟩)
  · intro hbleK
    rw [(monthlyFiveDates_perm start n w hour minute).countP_eq]
    apply List.countP_eq_zero.mpr
    intro d hdF hpd
    obtain ⟨hdL, hdble⟩ := List.mem_filter.mp hdF
    simp only [Bool.and_eq_true, decide_eq_true_eq] at hpd
    have hcan := monthlyLoop_five_canonical (n + 2) start.firstOfMonth
      (start.addMonths n) w hour minute hw7 d hdL
    have hdk : d = lastOccDT (iterAddMonths k start.firstOfMonth).year
        (iterAddMonths k start.firstOfMonth).month w hour minute := by
      rw [hcan, hpd.1, hpd.2]
    rw [hdk] at hdble
    rw [hbleK] at hdble
    exact Bool.noConfusion hdble
  · intro hk1
    refine ble_of_monthIdx_lt start
      (lastOccDT (iterAddMonths k start.firstOfMonth).year
        (iterAddMonths k start.firstOfMonth).month w hour minute)
      hv1 hv2 hcurb.1 hcurb.2 ?_
    show start.monthIdx <
      (lastOccDT (iterAddMonths k start.firstOfMonth).year
        (iterAddMonths k start.firstOfMonth).month w hour minute).monthIdx
    have hlm : (lastOccDT (iterAddMonths k start.firstOfMonth).year
        (iterAddMonths k start.firstOfMonth).month w hour
          minute).monthIdx =
        (iterAddMonths k start.firstOfMonth).monthIdx := rfl
    rw [hlm, hmidx]
    omega

/-- C5 amended: for every monthly template whose selector list is exactly
`[5]` and every structurally valid start date, (a) every expanded
occurrence is the chronologically last occurrence of the configured weekday
within its own month, stamped with the configured time; (b) at most one
occurrence is returned per calendar month; and (c) each month from the
start month through the horizon-end month contributes its last weekday
match exactly when that match is on or after `start_date` — which can fail
only for the start month itself (every later iterated month's match is
always included). The original claim's "exactly one occurrence in each
month of the horizon" fails for the start month whenever its last match
precedes `start_date` (see the counterexample). -/
theorem claim_C5_monthly_selector_five_last_occurrence (t : RTemplate)
    (start : DT) (n : Nat)
    (hty : t.schedule_type = .monthly)
    (hwom : t.schedule_config.week_of_month = some [5])
    (hv : start.Valid) :
    (∀ d ∈ calculate_schedule_dates t start n,
      (weekOccurrences d.year d.month
          (pythonWeekday (t.schedule_config.day_of_week.getD 0))).getLast? =
        some d.day ∧
      weekdayOf d.year d.month d.day =
        pythonWeekday (t.schedule_config.day_of_week.getD 0) ∧
      (∀ x ∈ weekOccurrences d.year d.month
          (pythonWeekday (t.schedule_config.day_of_week.getD 0)),
        x ≤ d.day) ∧
      d.hour = (configTime t.schedule_config).1 ∧
      d.minute = (configTime t.schedule_config).2) ∧
    (∀ y m : Nat,
      (calculate_schedule_dates t start n).countP
        (fun d => d.year = y && d.month = m) ≤ 1) ∧
    (∀ k, k ≤ n →
      (start.ble (lastOccDT (iterAddMonths k start.firstOfMonth).year
          (iterAddMonths k start.firstOfMonth).month
          (pythonWeekday (t.schedule_config.day_of_week.getD 0))
          (configTime t.schedule_config).1
          (configTime t.schedule_config).2) = true →
        lastOccDT (iterAddMonths k start.firstOfMonth).year
          (iterAddMonths k start.firstOfMonth).month
          (pythonWeekday (t.schedule_config.day_of_week.getD 0))
          (configTime t.schedule_config).1
          (configTime t.schedule_config).2 ∈
          calculate_schedule_dates t start n) ∧
      (start.ble (lastOccDT (iterAddMonths k start.firstOfMonth).year
          (iterAddMonths k start.firstOfMonth).month
          (pythonWeekday (t.schedule_config.day_of_week.getD 0))
          (configTime t.schedule_config).1
          (configTime t.schedule_config).2) = false →
        (calculate_schedule_dates t start n).countP
          (fun d => d.year = (iterAddMonths k start.firstOfMonth).year &&
            d.month = (iterAddMonths k start.firstOfMonth).month) = 0) ∧
      (1 ≤ k →
        start.ble (lastOccDT (iterAddMonths k start.firstOfMonth).year
          (iterAddMonths k start.firstOfMonth).month
          (pythonWeekday (t.schedule_config.day_of_week.getD 0))
          (configTime t.schedule_config).1
          (configTime t.schedule_config).2) = true)) := by
  have hD := calculate_eq_monthlyFiveDates t start n hty hwom
  have hw7 := pythonWeekday_lt_7 (t.schedule_config.day_of_week.getD 0)
  refine ⟨?_, ?_, ?_⟩
  · intro d hd
    rw [hD] at hd
    exact monthlyFiveDates_canonical start n _ _ _ hw7 d hd
  · intro y m
    rw [hD]
    exact monthlyFiveDates_at_most_one_per_month start n _ _ _ hw7 y m
  · intro k hk
    rw [hD]
    exact monthlyFiveDates_coverage start n _ _ _ hw7 hv k hk

/-- C5 witness: for the last-Monday template from 2024-01-31 over 6 months,
February's last Monday 2024-02-26 19:00 is in the expansion (its month
index 1 ≥ 1 forces inclusion), and March 2024 receives at most one
occurrence. -/
theorem claim_C5_monthly_selector_five_last_occurrence_witness :
    (⟨2024, 2, 26, 19, 0⟩ : DT) ∈
      calculate_schedule_dates lastMondayTemplate ⟨2024, 1, 31, 0, 0⟩ 6 ∧
    (calculate_schedule_dates lastMondayTemplate
        ⟨2024, 1, 31, 0, 0⟩ 6).countP
      (fun d => d.year = 2024 && d.month = 3) ≤ 1 :=
  have h := claim_C5_monthly_selector_five_last_occurrence
    lastMondayTemplate ⟨2024, 1, 31, 0, 0⟩ 6 rfl rfl (by decide)
  ⟨((h.2.2 1 (by decide)).1 (by decide) : _), h.2.1 2024 3⟩

end Ect
